import Mathlib

/-!
Verification of the `clean` transformation of `src/data_prep.py`
(finleyaf/sales-dashboard).

The source is a single-pass pandas pipeline.  We embed it shallowly:

* a pandas row becomes the structure `Row`; a dataframe becomes a list of
  `(index, Row)` pairs (pandas rows carry an integer index that
  `reset_index(drop=True)` rewrites to `0, 1, 2, ...`);
* a column that may hold `NaN` becomes an `Option` field
  (`Description`, `Customer ID`);
* the `InvoiceDate` column holds either raw text (`DateVal.raw`) or an
  already-parsed timestamp (`DateVal.parsed`), mirroring a pandas column of
  dtype `object` versus `datetime64`;
* decimal columns (`Price`, `Customer ID`) are modelled as exact rationals;
* `pd.to_datetime` and `.astype(int)` abort the whole operation on a bad
  value, so they are embedded with `mapO`, an `Option`-valued map over the
  rows that fails as soon as one row fails.
-/

namespace DataPrep

/-- A calendar timestamp, the embedding of a `datetime64` value
(`pd.to_datetime` parses minute-resolution strings in this data set). -/
structure Timestamp where
  year : Nat
  month : Nat
  day : Nat
  hour : Nat
  minute : Nat
deriving DecidableEq, Repr

/-- Gregorian leap-year rule. -/
def isLeap (y : Nat) : Bool :=
  (y % 4 == 0 && y % 100 != 0) || y % 400 == 0

/-- Number of days of month `m` in year `y`. -/
def daysInMonth (y m : Nat) : Nat :=
  if m = 2 then (if isLeap y then 29 else 28)
  else if m = 4 ∨ m = 6 ∨ m = 9 ∨ m = 11 then 30
  else 31

/-- A timestamp that `pd.to_datetime` could actually produce: all of its
fields are in calendar range. -/
def Timestamp.valid (t : Timestamp) : Bool :=
  decide (1 ≤ t.year ∧ 1 ≤ t.month ∧ t.month ≤ 12 ∧ 1 ≤ t.day ∧
    t.day ≤ daysInMonth t.year t.month ∧ t.hour < 24 ∧ t.minute < 60)

/-- Value of a decimal digit character. -/
def digitVal (c : Char) : Option Nat :=
  if c.isDigit then some (c.toNat - 48) else none

/-- Two-digit decimal field. -/
def num2 (a b : Char) : Option Nat :=
  match digitVal a, digitVal b with
  | some x, some y => some (10 * x + y)
  | _, _ => none

/-- Four-digit decimal field. -/
def num4 (a b c d : Char) : Option Nat :=
  match num2 a b, num2 c d with
  | some x, some y => some (100 * x + y)
  | _, _ => none

/-- Build a timestamp, failing when a field is out of calendar range
(the behaviour of `pd.to_datetime` on e.g. month 13 or day 32). -/
def mkTimestamp (y mo d h mi : Nat) : Option Timestamp :=
  let t : Timestamp := ⟨y, mo, d, h, mi⟩
  if t.valid then some t else none

/-- The date formats occurring in this data set, `YYYY-MM-DD HH:MM` and
`YYYY-MM-DD`, as parsed by `pd.to_datetime`; anything else is not
date-like and fails. -/
def parseDate (s : String) : Option Timestamp :=
  match s.data with
  | [y1, y2, y3, y4, '-', m1, m2, '-', d1, d2, ' ', h1, h2, ':', n1, n2] =>
    match num4 y1 y2 y3 y4, num2 m1 m2, num2 d1 d2, num2 h1 h2, num2 n1 n2 with
    | some y, some mo, some d, some h, some mi => mkTimestamp y mo d h mi
    | _, _, _, _, _ => none
  | [y1, y2, y3, y4, '-', m1, m2, '-', d1, d2] =>
    match num4 y1 y2 y3 y4, num2 m1 m2, num2 d1 d2 with
    | some y, some mo, some d => mkTimestamp y mo d 0 0
    | _, _, _ => none
  | _ => none

/-- Days elapsed since 0000-03-01 (proleptic Gregorian), the standard
civil-from-days day count used to obtain weekdays. -/
def dayNumber (t : Timestamp) : Nat :=
  let y := if t.month ≤ 2 then t.year - 1 else t.year
  let m := if t.month ≤ 2 then t.month + 9 else t.month - 3
  let era := y / 400
  let yoe := y % 400
  let doy := (153 * m + 2) / 5 + t.day - 1
  let doe := yoe * 365 + yoe / 4 - yoe / 100 + doy
  era * 146097 + doe

/-- Weekday index with Monday = 0 .. Sunday = 6 (the pandas
`dayofweek` convention; 0000-03-01 is a Wednesday, index 2). -/
def dayIdx (t : Timestamp) : Nat := (dayNumber t + 2) % 7

/-- The seven full English weekday names returned by `Series.dt.day_name()`. -/
def dayNames : List String :=
  ["Monday", "Tuesday", "Wednesday", "Thursday", "Friday", "Saturday", "Sunday"]

/-- Full English weekday name (`df["InvoiceDate"].dt.day_name()`). -/
def dayName (t : Timestamp) : String := dayNames.getD (dayIdx t) ("Monday")

/-- Days of year `y` that precede month `m`. -/
def daysBeforeMonth (y m : Nat) : Nat :=
  ((List.range (m - 1)).map (fun i => daysInMonth y (i + 1))).foldl (· + ·) 0

/-- Ordinal day of the year (1 = January 1st). -/
def dayOfYear (t : Timestamp) : Nat := daysBeforeMonth t.year t.month + t.day

/-- ISO weekday, Monday = 1 .. Sunday = 7. -/
def isoDow (t : Timestamp) : Nat := dayIdx t + 1

/-- Weekday index of 31 December of year `y` (0 = Sunday), the classical
helper for counting ISO weeks. -/
def dec31Idx (y : Nat) : Nat := (y + y / 4 - y / 100 + y / 400) % 7

/-- Number of ISO-8601 weeks in year `y` (52 or 53). -/
def isoWeeksInYear (y : Nat) : Nat :=
  52 + (if dec31Idx y = 4 ∨ dec31Idx (y - 1) = 3 then 1 else 0)

/-- ISO-8601 week number (`df["InvoiceDate"].dt.isocalendar().week`). -/
def isoWeek (t : Timestamp) : Nat :=
  let w := (dayOfYear t + 10 - isoDow t) / 7
  if w = 0 then isoWeeksInYear (t.year - 1)
  else if isoWeeksInYear t.year < w then 1
  else w

/-- An `InvoiceDate` cell: raw text before `pd.to_datetime`, a timestamp
after it. -/
inductive DateVal where
  | raw (s : String)
  | parsed (t : Timestamp)
deriving DecidableEq, Repr

/-- Embedding of `pd.to_datetime` on one cell: parses text, leaves timestamps alone. -/
def toDatetime : DateVal → Option Timestamp
  | .raw s => parseDate s
  | .parsed t => some t

/-- One row of the dataframe.  The six trailing fields are the derived
columns, absent (`none`) until `clean` adds them. -/
structure Row where
  invoiceNo : String
  stockCode : String
  description : Option String
  quantity : Int
  invoiceDate : DateVal
  price : Rat
  customerID : Option Rat
  country : String
  totalPrice : Option Rat := none
  invoiceYear : Option Nat := none
  invoiceMonth : Option Nat := none
  yearMonth : Option (Nat × Nat) := none
  invoiceWeek : Option Nat := none
  invoiceDay : Option String := none
deriving DecidableEq, Repr

/-- Python `str.strip` of the trailing end: drop trailing whitespace. -/
def stripR : List Char → List Char
  | [] => []
  | a :: l =>
    match stripR l with
    | [] => if a.isWhitespace then [] else [a]
    | b :: t => a :: b :: t

/-- Python `str.strip`: drop leading and trailing whitespace
(`df["Description"].str.strip()` applies it cellwise). -/
def pstrip (s : String) : String := ⟨stripR (s.data.dropWhile Char.isWhitespace)⟩

/-- Truncation toward zero, the C-style float-to-int conversion performed
by `.astype(int)` on a float64 column. -/
def truncRat (q : Rat) : Int := Int.tdiv q.num q.den

/-- Apply a fallible cell operation to every row; one failing cell aborts
the whole column operation (`pd.to_datetime`, `.astype(int)`). -/
def mapO {α β : Type} (f : α → Option β) : List α → Option (List β)
  | [] => some []
  | a :: l =>
    match f a, mapO f l with
    | some b, some l2 => some (b :: l2)
    | _, _ => none

/-- Line `df["InvoiceDate"] = pd.to_datetime(df["InvoiceDate"])`, on one row. -/
def parsePair (p : Nat × Row) : Option (Nat × Row) :=
  (toDatetime p.2.invoiceDate).map fun t => (p.1, {p.2 with invoiceDate := .parsed t})

/-- Line `df["Customer ID"] = df["Customer ID"].astype(int)`, on one row;
`.astype(int)` raises on a missing value. -/
def castPair (p : Nat × Row) : Option (Nat × Row) :=
  match p.2.customerID with
  | none => none
  | some v => some (p.1, {p.2 with customerID := some ((truncRat v : Int) : Rat)})

/-- The feature-engineering block (lines 35-40 of `data_prep.py`): the
`.dt` accessors require the already-parsed `InvoiceDate` column. -/
def deriveRow (r : Row) : Row :=
  match r.invoiceDate with
  | .parsed t =>
    { r with
      totalPrice := some ((r.quantity : Rat) * r.price)
      invoiceYear := some t.year
      invoiceMonth := some t.month
      yearMonth := some (t.year, t.month)
      invoiceWeek := some (isoWeek t)
      invoiceDay := some (dayName t) }
  | .raw _ => r

/-- Line `df["Description"] = df["Description"].str.strip()`, on one row. -/
def stripRow (r : Row) : Row := {r with description := r.description.map pstrip}

/-- The `clean` function of `data_prep.py`, step for step:
`dropna(subset=["Description"])`; `pd.to_datetime` on `InvoiceDate`;
the `Quantity > 0` and `Price > 0` filters; `dropna(subset=["Customer ID"])`;
`astype(int)` on `Customer ID`; the derived columns; `str.strip` on
`Description`; `reset_index(drop=True)`. -/
def clean (df : List (Nat × Row)) : Option (List (Nat × Row)) :=
  -- df = df.dropna(subset=["Description"])
  -- df["InvoiceDate"] = pd.to_datetime(df["InvoiceDate"])
  (mapO parsePair (df.filter fun p => p.2.description.isSome)).bind fun df2 =>
  -- df = df[df["Quantity"] > 0]; df = df[df["Price"] > 0]
  -- df = df.dropna(subset=["Customer ID"])
  -- df["Customer ID"] = df["Customer ID"].astype(int)
  (mapO castPair (((df2.filter fun p => decide (0 < p.2.quantity)).filter
      fun p => decide (0 < p.2.price)).filter fun p => p.2.customerID.isSome)).bind fun df6 =>
  -- feature engineering, str.strip, reset_index(drop=True)
  some ((((df6.map fun p => (p.1, deriveRow p.2)).map
      fun p => (p.1, stripRow p.2)).map Prod.snd).enum)

/-- Well-formedness of an `InvoiceDate` cell as pandas can actually hold
it: raw text is unconstrained, a `datetime64` value is always in calendar
range. -/
def dateOk : DateVal → Bool
  | .raw _ => true
  | .parsed t => t.valid

/-- What `clean` does to one retained row: parse its date, cast its
customer id, add the derived columns, strip its description. -/
def rowTrans (t : Timestamp) (v : Rat) (r : Row) : Row :=
  stripRow (deriveRow
    {r with invoiceDate := DateVal.parsed t,
            customerID := some ((truncRat v : Int) : Rat)})

/-! ### Concrete sample data -/

/-- The scenario input row of §8 of the spec:
`{Description: " Mug ", Quantity: 3, Price: 2.50, Customer ID: 17850.0,
InvoiceDate: "2010-12-01 08:26", ...}`. -/
def mugRow : Row :=
  { invoiceNo := "536365", stockCode := "85123A", description := some (" Mug "),
    quantity := 3, invoiceDate := DateVal.raw ("2010-12-01 08:26"),
    price := mkRat 25 10, customerID := some (mkRat 17850 1),
    country := "United Kingdom" }

def mugDF : List (Nat × Row) := [(0, mugRow)]

/-- The row `clean` produces from `mugRow`. -/
def mugOut : Row :=
  { invoiceNo := "536365", stockCode := "85123A", description := some ("Mug"),
    quantity := 3, invoiceDate := DateVal.parsed ⟨2010, 12, 1, 8, 26⟩,
    price := mkRat 25 10, customerID := some ((17850 : Int) : Rat),
    country := "United Kingdom",
    totalPrice := some (((3 : Int) : Rat) * mkRat 25 10),
    invoiceYear := some 2010, invoiceMonth := some 12,
    yearMonth := some (2010, 12), invoiceWeek := some 48,
    invoiceDay := some ("Wednesday") }

/-- A row whose `Description` is whitespace only: not `NaN`, so
`dropna(subset=["Description"])` keeps it. -/
def wsRow : Row :=
  { invoiceNo := "536366", stockCode := "71053", description := some (" "),
    quantity := 1, invoiceDate := DateVal.raw ("2010-12-01 08:28"),
    price := mkRat 339 100, customerID := some (mkRat 17850 1),
    country := "United Kingdom" }

def wsDF : List (Nat × Row) := [(0, wsRow)]

/-- A row with a missing `Description` and an unparseable `InvoiceDate`:
`dropna(subset=["Description"])` removes it before `pd.to_datetime` runs. -/
def nullDescBadDateRow : Row :=
  { invoiceNo := "536367", stockCode := "84406B", description := none,
    quantity := 2, invoiceDate := DateVal.raw ("not-a-date"),
    price := mkRat 275 100, customerID := some (mkRat 13047 1),
    country := "United Kingdom" }

def nullDescBadDateDF : List (Nat × Row) := [(0, nullDescBadDateRow)]

/-- A row with a present `Description` and an unparseable `InvoiceDate`:
`pd.to_datetime` reaches it and aborts. -/
def badDateRow : Row :=
  { invoiceNo := "536368", stockCode := "22960", description := some ("Jam jar"),
    quantity := 6, invoiceDate := DateVal.raw ("garbage"),
    price := mkRat 425 100, customerID := some (mkRat 13047 1),
    country := "United Kingdom" }

def badDateDF : List (Nat × Row) := [(0, badDateRow)]

/-- A row whose `Customer ID` carries a genuine fractional component. -/
def fracRow : Row :=
  { invoiceNo := "536369", stockCode := "21756", description := some ("Box"),
    quantity := 4, invoiceDate := DateVal.raw ("2011-03-15 10:45"),
    price := mkRat 595 100, customerID := some (mkRat 178507 10),
    country := "France" }

def fracDF : List (Nat × Row) := [(0, fracRow)]

/-- The row `clean` produces from `fracRow`: `17850.7` truncates to `17850`
(rounding would give `17851`). -/
def fracOut : Row :=
  { invoiceNo := "536369", stockCode := "21756", description := some ("Box"),
    quantity := 4, invoiceDate := DateVal.parsed ⟨2011, 3, 15, 10, 45⟩,
    price := mkRat 595 100, customerID := some ((17850 : Int) : Rat),
    country := "France",
    totalPrice := some (((4 : Int) : Rat) * mkRat 595 100),
    invoiceYear := some 2011, invoiceMonth := some 3,
    yearMonth := some (2011, 3), invoiceWeek := some 11,
    invoiceDay := some ("Tuesday") }

/-! ### Lemmas about `mapO` -/

theorem mapO_nil {α β : Type} (f : α → Option β) : mapO f [] = some [] := rfl

theorem mapO_cons {α β : Type} (f : α → Option β) (a : α) (l : List α) :
    mapO f (a :: l) =
      match f a, mapO f l with
      | some b, some l2 => some (b :: l2)
      | _, _ => none := rfl

theorem mapO_mem {α β : Type} {f : α → Option β} :
    ∀ {l : List α} {l2 : List β}, mapO f l = some l2 →
      ∀ b ∈ l2, ∃ a ∈ l, f a = some b := by
  intro l
  induction l with
  | nil =>
    intro l2 h b hb
    simp only [mapO_nil, Option.some.injEq] at h
    subst h
    simp at hb
  | cons a t ih =>
    intro l2 h b hb
    rw [mapO_cons] at h
    cases hfa : f a with
    | none => rw [hfa] at h; exact absurd h (by simp)
    | some b0 =>
      cases hmt : mapO f t with
      | none => rw [hfa, hmt] at h; exact absurd h (by simp)
      | some t2 =>
        rw [hfa, hmt] at h
        simp only [Option.some.injEq] at h
        subst h
        rcases List.mem_cons.mp hb with hb | hb
        · exact ⟨a, List.mem_cons_self a t, hb ▸ hfa⟩
        · obtain ⟨a0, ha0, hfa0⟩ := ih hmt b hb
          exact ⟨a0, List.mem_cons_of_mem a ha0, hfa0⟩

theorem mapO_length {α β : Type} {f : α → Option β} :
    ∀ {l : List α} {l2 : List β}, mapO f l = some l2 → l2.length = l.length := by
  intro l
  induction l with
  | nil =>
    intro l2 h
    simp only [mapO_nil, Option.some.injEq] at h
    subst h; rfl
  | cons a t ih =>
    intro l2 h
    rw [mapO_cons] at h
    cases hfa : f a with
    | none => rw [hfa] at h; exact absurd h (by simp)
    | some b0 =>
      cases hmt : mapO f t with
      | none => rw [hfa, hmt] at h; exact absurd h (by simp)
      | some t2 =>
        rw [hfa, hmt] at h
        simp only [Option.some.injEq] at h
        subst h
        simp [ih hmt]

theorem mapO_eq_none {α β : Type} {f : α → Option β} :
    ∀ {l : List α} {a : α}, a ∈ l → f a = none → mapO f l = none := by
  intro l
  induction l with
  | nil => intro a ha; simp at ha
  | cons b t ih =>
    intro a ha hfa
    rw [mapO_cons]
    rcases List.mem_cons.mp ha with h | h
    · subst h; rw [hfa]
    · rw [ih h hfa]
      cases f b <;> rfl

theorem mapO_isSome {α β : Type} {f : α → Option β} :
    ∀ {l : List α}, (∀ a ∈ l, (f a).isSome) → (mapO f l).isSome := by
  intro l
  induction l with
  | nil => intro _; simp [mapO_nil]
  | cons a t ih =>
    intro h
    rw [mapO_cons]
    cases hfa : f a with
    | none =>
      have := h a (List.mem_cons_self a t)
      rw [hfa] at this; simp at this
    | some b =>
      have ht := ih fun x hx => h x (List.mem_cons_of_mem a hx)
      cases hmt : mapO f t with
      | none => rw [hmt] at ht; simp at ht
      | some t2 => simp

theorem mapO_id {α : Type} {f : α → Option α} :
    ∀ {l : List α}, (∀ a ∈ l, f a = some a) → mapO f l = some l := by
  intro l
  induction l with
  | nil => intro _; rfl
  | cons a t ih =>
    intro h
    rw [mapO_cons, h a (List.mem_cons_self a t),
      ih fun x hx => h x (List.mem_cons_of_mem a hx)]

theorem mapO_map {α γ : Type} {f : α → Option α} {g : α → γ} :
    ∀ {l l2 : List α}, mapO f l = some l2 →
      (∀ a b, f a = some b → g b = g a) → l2.map g = l.map g := by
  intro l
  induction l with
  | nil =>
    intro l2 h _
    simp only [mapO_nil, Option.some.injEq] at h
    subst h; rfl
  | cons a t ih =>
    intro l2 h hg
    rw [mapO_cons] at h
    cases hfa : f a with
    | none => rw [hfa] at h; exact absurd h (by simp)
    | some b0 =>
      cases hmt : mapO f t with
      | none => rw [hfa, hmt] at h; exact absurd h (by simp)
      | some t2 =>
        rw [hfa, hmt] at h
        simp only [Option.some.injEq] at h
        subst h
        simp only [List.map_cons, ih hmt hg, hg a b0 hfa]

/-! ### Lemmas about `pstrip` -/

theorem dropWhile_ws_idem (p : Char → Bool) :
    ∀ l : List Char, List.dropWhile p (List.dropWhile p l) = List.dropWhile p l := by
  intro l
  induction l with
  | nil => rfl
  | cons a t ih =>
    by_cases h : p a
    · simp [List.dropWhile_cons, h, ih]
    · simp [List.dropWhile_cons, h]

theorem stripR_shape (a : Char) (l : List Char) :
    stripR (a :: l) = [] ∨ ∃ t, stripR (a :: l) = a :: t := by
  rw [stripR]
  cases stripR l with
  | nil =>
    by_cases h : a.isWhitespace
    · left; simp [h]
    · right; exact ⟨[], by simp [h]⟩
  | cons b t => right; exact ⟨b :: t, rfl⟩

theorem stripR_idem : ∀ l : List Char, stripR (stripR l) = stripR l := by
  intro l
  induction l with
  | nil => rfl
  | cons a t ih =>
    have hcons : stripR (a :: t) =
        match stripR t with
        | [] => if a.isWhitespace then [] else [a]
        | b :: u => a :: b :: u := rfl
    cases hst : stripR t with
    | nil =>
      rw [hcons, hst]
      by_cases h : a.isWhitespace
      · simp only [h, if_true]
        rfl
      · rw [if_neg (by simp [h])]
        rw [show stripR [a] =
          (if a.isWhitespace then [] else [a]) from rfl]
        rw [if_neg (by simp [h])]
    | cons b u =>
      rw [hcons, hst]
      rw [hst] at ih
      rw [show stripR (a :: b :: u) =
        (match stripR (b :: u) with
         | [] => if a.isWhitespace then [] else [a]
         | c :: v => a :: c :: v) from rfl]
      rw [ih]

theorem stripR_head_not_ws (a : Char) (l : List Char) (ha : a.isWhitespace = false) :
    ∀ t, stripR (a :: l) = a :: t → List.dropWhile Char.isWhitespace (a :: t) = a :: t := by
  intro t _
  simp [List.dropWhile_cons, ha]

/-- Python str.strip is idempotent. -/
theorem pstrip_idem (s : String) : pstrip (pstrip s) = pstrip s := by
  unfold pstrip
  congr 1
  show stripR (List.dropWhile Char.isWhitespace
      (stripR (List.dropWhile Char.isWhitespace s.data))) = _
  cases hdw : List.dropWhile Char.isWhitespace s.data with
  | nil => rfl
  | cons a t =>
    have ha : a.isWhitespace = false := by
      have := List.head?_dropWhile_not Char.isWhitespace s.data
      rw [hdw] at this
      simpa using this
    rcases stripR_shape a t with h | ⟨u, h⟩
    · rw [h]; rfl
    · rw [h, stripR_head_not_ws a t ha u h, ← h, stripR_idem]

/-- The result of `str.strip` is a fixed point of `str.strip`. -/
theorem pstrip_fixed (s : String) : pstrip (pstrip s) = pstrip s := pstrip_idem s

/-! ### Lemmas about `truncRat` and timestamps -/

/-- Truncating an integer-valued rational gives that integer back. -/
theorem truncRat_intCast (n : Int) : truncRat ((n : Int) : Rat) = n := by
  unfold truncRat
  rw [Rat.num_intCast, Rat.den_intCast]
  exact Int.tdiv_one n

theorem mkTimestamp_valid {y mo d h mi : Nat} {t : Timestamp}
    (hmk : mkTimestamp y mo d h mi = some t) : t.valid = true := by
  unfold mkTimestamp at hmk
  by_cases hv : (Timestamp.mk y mo d h mi).valid
  · simp only [hv, if_true, Option.some.injEq] at hmk
    rw [← hmk]; exact hv
  · simp [hv] at hmk

/-- Every timestamp produced by the date parser is in calendar range. -/
theorem parseDate_valid {s : String} {t : Timestamp}
    (hp : parseDate s = some t) : t.valid = true := by
  unfold parseDate at hp
  split at hp
  · split at hp
    · exact mkTimestamp_valid hp
    · exact absurd hp (by simp)
  · split at hp
    · exact mkTimestamp_valid hp
    · exact absurd hp (by simp)
  · exact absurd hp (by simp)

theorem toDatetime_valid {v : DateVal} {t : Timestamp}
    (hok : dateOk v = true) (h : toDatetime v = some t) : t.valid = true := by
  cases v with
  | raw s => exact parseDate_valid h
  | parsed t0 =>
    simp only [toDatetime, Option.some.injEq] at h
    subst h
    exact hok

theorem Timestamp.valid_month {t : Timestamp} (h : t.valid = true) :
    1 ≤ t.month ∧ t.month ≤ 12 := by
  unfold Timestamp.valid at h
  rw [decide_eq_true_eq] at h
  exact ⟨h.2.1, h.2.2.1⟩

/-! ### Bounds of the derived calendar fields -/

theorem isoWeeksInYear_bounds (y : Nat) :
    52 ≤ isoWeeksInYear y ∧ isoWeeksInYear y ≤ 53 := by
  unfold isoWeeksInYear
  split <;> omega

/-- The ISO week number is always between 1 and 53. -/
theorem isoWeek_bounds (t : Timestamp) : 1 ≤ isoWeek t ∧ isoWeek t ≤ 53 := by
  have hdef : isoWeek t =
      if (dayOfYear t + 10 - isoDow t) / 7 = 0 then isoWeeksInYear (t.year - 1)
      else if isoWeeksInYear t.year < (dayOfYear t + 10 - isoDow t) / 7 then 1
      else (dayOfYear t + 10 - isoDow t) / 7 := rfl
  rw [hdef]
  have h1 := isoWeeksInYear_bounds (t.year - 1)
  have h2 := isoWeeksInYear_bounds t.year
  split
  · omega
  · split <;> omega

/-- The weekday name is always one of the seven English names. -/
theorem dayName_mem (t : Timestamp) : dayName t ∈ dayNames := by
  unfold dayName
  have h : dayIdx t < 7 := Nat.mod_lt _ (by omega)
  have h7 : dayNames.length = 7 := rfl
  rw [List.getD_eq_getElem dayNames ("Monday") (by omega)]
  exact List.getElem_mem _

/-! ### The output of `clean`, row by row -/

theorem rowTrans_invoiceNo (t : Timestamp) (v : Rat) (r : Row) :
    (rowTrans t v r).invoiceNo = r.invoiceNo := rfl

theorem rowTrans_description (t : Timestamp) (v : Rat) (r : Row) :
    (rowTrans t v r).description = r.description.map pstrip := rfl

theorem rowTrans_quantity (t : Timestamp) (v : Rat) (r : Row) :
    (rowTrans t v r).quantity = r.quantity := rfl

theorem rowTrans_price (t : Timestamp) (v : Rat) (r : Row) :
    (rowTrans t v r).price = r.price := rfl

theorem rowTrans_invoiceDate (t : Timestamp) (v : Rat) (r : Row) :
    (rowTrans t v r).invoiceDate = DateVal.parsed t := rfl

theorem rowTrans_customerID (t : Timestamp) (v : Rat) (r : Row) :
    (rowTrans t v r).customerID = some ((truncRat v : Int) : Rat) := rfl

theorem rowTrans_totalPrice (t : Timestamp) (v : Rat) (r : Row) :
    (rowTrans t v r).totalPrice = some ((r.quantity : Rat) * r.price) := rfl

theorem rowTrans_invoiceYear (t : Timestamp) (v : Rat) (r : Row) :
    (rowTrans t v r).invoiceYear = some t.year := rfl

theorem rowTrans_invoiceMonth (t : Timestamp) (v : Rat) (r : Row) :
    (rowTrans t v r).invoiceMonth = some t.month := rfl

theorem rowTrans_yearMonth (t : Timestamp) (v : Rat) (r : Row) :
    (rowTrans t v r).yearMonth = some (t.year, t.month) := rfl

theorem rowTrans_invoiceWeek (t : Timestamp) (v : Rat) (r : Row) :
    (rowTrans t v r).invoiceWeek = some (isoWeek t) := rfl

theorem rowTrans_invoiceDay (t : Timestamp) (v : Rat) (r : Row) :
    (rowTrans t v r).invoiceDay = some (dayName t) := rfl

/-- Master correspondence: every row of the output of `clean` is the
transform of an input row that passed all four filters. -/
theorem clean_mem {df out : List (Nat × Row)} (h : clean df = some out) :
    ∀ p ∈ out, ∃ q ∈ df, ∃ t v,
      q.2.description.isSome = true ∧
      toDatetime q.2.invoiceDate = some t ∧
      q.2.customerID = some v ∧
      0 < q.2.quantity ∧ 0 < q.2.price ∧
      p.2 = rowTrans t v q.2 := by
  unfold clean at h
  rcases Option.bind_eq_some.mp h with ⟨df2, hparse, h2⟩
  rcases Option.bind_eq_some.mp h2 with ⟨df6, hcast, h6⟩
  simp only [Option.some.injEq] at h6
  subst h6
  intro p hp
  have hp2 : p.2 ∈ ((df6.map fun p => (p.1, deriveRow p.2)).map
      fun p => (p.1, stripRow p.2)).map Prod.snd := by
    have := List.mem_map_of_mem Prod.snd hp
    rwa [List.enum_map_snd] at this
  simp only [List.map_map, List.mem_map, Function.comp] at hp2
  obtain ⟨p6, hp6, heq6⟩ := hp2
  obtain ⟨a, ha5, hca⟩ := mapO_mem hcast p6 hp6
  have ha4 := List.mem_filter.mp ha5
  have ha3 := List.mem_filter.mp ha4.1
  have ha2 := List.mem_filter.mp ha3.1
  obtain ⟨q1, hq1, hpq⟩ := mapO_mem hparse a ha2.1
  have hq := List.mem_filter.mp hq1
  -- unpack the parse of q1
  unfold parsePair at hpq
  cases htd : toDatetime q1.2.invoiceDate with
  | none => rw [htd] at hpq; exact absurd hpq (by simp)
  | some t =>
    rw [htd] at hpq
    have hpq2 : (q1.1, ({q1.2 with invoiceDate := DateVal.parsed t} : Row)) = a :=
      Option.some.inj hpq
    -- unpack the cast of a
    unfold castPair at hca
    cases hcid : a.2.customerID with
    | none => rw [hcid] at hca; exact absurd hca (by simp)
    | some v =>
      rw [hcid] at hca
      have hca2 : (a.1, ({a.2 with customerID := some ((truncRat v : Int) : Rat)} : Row)) = p6 :=
        Option.some.inj hca
      refine ⟨q1, hq.1, t, v, hq.2, htd, ?_, ?_, ?_, ?_⟩
      · -- q1's customer id is v: parsing did not touch that column
        rw [← hpq2] at hcid
        exact hcid
      · -- quantity > 0, read off the filter on df3
        have hqty := of_decide_eq_true ha2.2
        rw [← hpq2] at hqty
        exact hqty
      · -- price > 0, read off the filter on df4
        have hpr := of_decide_eq_true ha3.2
        rw [← hpq2] at hpr
        exact hpr
      · -- the output row is the transform of q1
        rw [← heq6, ← hca2, ← hpq2]
        rfl

/-- The output of `clean` is its own enumeration: the index column is
`0, 1, 2, ...` (`reset_index(drop=True)`). -/
theorem clean_out_enum {df out : List (Nat × Row)} (h : clean df = some out) :
    out = (out.map Prod.snd).enum := by
  unfold clean at h
  rcases Option.bind_eq_some.mp h with ⟨df2, _, h2⟩
  rcases Option.bind_eq_some.mp h2 with ⟨df6, _, h6⟩
  simp only [Option.some.injEq] at h6
  subst h6
  rw [List.enum_map_snd]

/-! ### Concrete evaluations of `clean` on the sample frames -/

theorem clean_mugDF : clean mugDF = some [(0, mugOut)] := rfl

theorem clean_fracDF : clean fracDF = some [(0, fracOut)] := rfl

/-! ### Claim theorems -/

/-- C1: for every input dataset on which `clean` succeeds, every record of
the output dataset has non-null `Description`, non-null `CustomerID`,
`Quantity > 0`, and `Price > 0`. -/
theorem c1_output_filters {df out : List (Nat × Row)} (h : clean df = some out) :
    ∀ p ∈ out, p.2.description.isSome = true ∧ p.2.customerID.isSome = true ∧
      0 < p.2.quantity ∧ 0 < p.2.price := by
  intro p hp
  obtain ⟨q, _, t, v, hdesc, _, _, hqty, hpr, heq⟩ := clean_mem h p hp
  rw [heq]
  refine ⟨?_, ?_, ?_, ?_⟩
  · rw [rowTrans_description]
    cases hqd : q.2.description with
    | none => rw [hqd] at hdesc; simp at hdesc
    | some s => rfl
  · rw [rowTrans_customerID]; rfl
  · rw [rowTrans_quantity]; exact hqty
  · rw [rowTrans_price]; exact hpr

theorem c1_witness :
    mugOut.description.isSome = true ∧ mugOut.customerID.isSome = true ∧
      0 < mugOut.quantity ∧ 0 < mugOut.price :=
  c1_output_filters clean_mugDF (0, mugOut) (List.Mem.head _)

/-- C2: for every record of the output of `clean`, the derived field
`TotalPrice` equals `Quantity * Price` exactly (a single exact
multiplication, no rounding step). -/
theorem c2_totalPrice_exact {df out : List (Nat × Row)} (h : clean df = some out) :
    ∀ p ∈ out, p.2.totalPrice = some ((p.2.quantity : Rat) * p.2.price) := by
  intro p hp
  obtain ⟨q, _, t, v, _, _, _, _, _, heq⟩ := clean_mem h p hp
  rw [heq, rowTrans_totalPrice, rowTrans_quantity, rowTrans_price]

theorem c2_witness :
    mugOut.totalPrice = some ((mugOut.quantity : Rat) * mugOut.price) :=
  c2_totalPrice_exact clean_mugDF (0, mugOut) (List.Mem.head _)

/-- C3, counterexample to the claim as stated: this input dataset contains
an `InvoiceDate` value that is not date-like, yet `clean` succeeds (the
row's `Description` is missing, so `dropna(subset=["Description"])` removes
it before `pd.to_datetime` runs). -/
theorem c3_counterexample :
    toDatetime nullDescBadDateRow.invoiceDate = none ∧
      clean nullDescBadDateDF = some [] := ⟨rfl, rfl⟩

/-- C3 (amended): if any `InvoiceDate` value among the records whose
`Description` is non-null is not date-like, `clean` fails with a parse
error and produces no output dataset — a single such value aborts the
whole operation. -/
theorem c3_parse_abort {df : List (Nat × Row)}
    (h : ∃ p ∈ df, p.2.description.isSome = true ∧ toDatetime p.2.invoiceDate = none) :
    clean df = none := by
  obtain ⟨p, hp, hdesc, htd⟩ := h
  unfold clean
  have hp1 : p ∈ df.filter fun p => p.2.description.isSome :=
    List.mem_filter.mpr ⟨hp, hdesc⟩
  have : parsePair p = none := by
    unfold parsePair
    rw [htd]
    rfl
  rw [mapO_eq_none hp1 this]
  rfl

theorem c3_witness : clean badDateDF = none :=
  c3_parse_abort ⟨(0, badDateRow), List.Mem.head _, rfl, rfl⟩

/-- C4, counterexample to the claim as stated: on this input (a whitespace-
only `Description`, which is not null and so survives `dropna`), `clean`
succeeds and the single output record's `Description` is the empty
string — not a non-empty string. -/
theorem c4_counterexample :
    (clean wsDF).map (List.map fun p => p.2.description) = some [some ("")] := rfl

/-- C4 (amended): for every record of the output of `clean`, the
`Description` field is a string with no leading or trailing whitespace
(a fixed point of stripping), possibly empty. -/
theorem c4_description_stripped {df out : List (Nat × Row)} (h : clean df = some out) :
    ∀ p ∈ out, ∃ s, p.2.description = some s ∧ pstrip s = s := by
  intro p hp
  obtain ⟨q, _, t, v, hdesc, _, _, _, _, heq⟩ := clean_mem h p hp
  cases hqd : q.2.description with
  | none => rw [hqd] at hdesc; simp at hdesc
  | some s0 =>
    refine ⟨pstrip s0, ?_, pstrip_idem s0⟩
    rw [heq, rowTrans_description, hqd]
    rfl

theorem c4_witness : ∃ s, mugOut.description = some s ∧ pstrip s = s :=
  c4_description_stripped clean_mugDF (0, mugOut) (List.Mem.head _)

/-- C5: every retained `Customer ID` value `v` is cast by truncation toward
zero: the output `CustomerID` is `⌊v⌋-toward-zero` as an integer-valued
rational. -/
theorem c5_customer_trunc {df out : List (Nat × Row)} (h : clean df = some out) :
    ∀ p ∈ out, ∃ q ∈ df, ∃ v, q.2.customerID = some v ∧
      p.2.customerID = some ((truncRat v : Int) : Rat) := by
  intro p hp
  obtain ⟨q, hq, t, v, _, _, hcid, _, _, heq⟩ := clean_mem h p hp
  exact ⟨q, hq, v, hcid, by rw [heq, rowTrans_customerID]⟩

/-- Witness for C5 at the fractional value 17850.7: the output id is
17850 (truncation), not 17851 (rounding). -/
theorem c5_witness :
    (∃ q ∈ fracDF, ∃ v, q.2.customerID = some v ∧
      fracOut.customerID = some ((truncRat v : Int) : Rat)) ∧
    fracOut.customerID = some ((17850 : Int) : Rat) ∧
    truncRat (mkRat 178507 10) = 17850 :=
  ⟨c5_customer_trunc clean_fracDF (0, fracOut) (List.Mem.head _), rfl, rfl⟩

/-- C6: the §8 scenario. On the input row
`{Description: " Mug ", Quantity: 3, Price: 2.50, Customer ID: 17850.0,
InvoiceDate: "2010-12-01 08:26"}`, `clean` produces one row with
`Description "Mug"`, `CustomerID 17850`, `InvoiceYear 2010`,
`InvoiceMonth 12`, `InvoiceWeek 48`, `InvoiceDay "Wednesday"` and
`TotalPrice 7.50` (= 15/2). -/
theorem c6_scenario :
    (clean mugDF).map (List.map fun p =>
      (p.1, p.2.description, p.2.customerID, p.2.invoiceYear, p.2.invoiceMonth,
        p.2.invoiceWeek, p.2.invoiceDay)) =
      some [(0, some ("Mug"), some ((17850 : Int) : Rat), some 2010, some 12,
        some 48, some ("Wednesday"))] ∧
    (clean mugDF).map (List.map fun p => p.2.totalPrice) = some [some (mkRat 15 2)] := by
  constructor
  · rfl
  · rw [show (clean mugDF).map (List.map fun p => p.2.totalPrice) =
        some [some (((3 : Int) : Rat) * mkRat 25 10)] from rfl]
    rw [show ((3 : Int) : Rat) * mkRat 25 10 = mkRat 15 2 by
      rw [Rat.mkRat_eq_div, Rat.mkRat_eq_div]; norm_num]

/-- C8: every output record's `InvoiceWeek` lies in [1, 53], its
`InvoiceMonth` in [1, 12], and its `InvoiceDay` is one of the seven full
English weekday names.  (The hypothesis `hok` is the well-formedness of the
input `InvoiceDate` column: a raw string cell is unconstrained, an
already-parsed cell holds a calendar-range timestamp, as a pandas
`datetime64` value always does.) -/
theorem c8_calendar_fields {df out : List (Nat × Row)} (h : clean df = some out)
    (hok : ∀ p ∈ df, dateOk p.2.invoiceDate = true) :
    ∀ p ∈ out,
      (∃ w, p.2.invoiceWeek = some w ∧ 1 ≤ w ∧ w ≤ 53) ∧
      (∃ m, p.2.invoiceMonth = some m ∧ 1 ≤ m ∧ m ≤ 12) ∧
      (∃ s, p.2.invoiceDay = some s ∧ s ∈ dayNames) := by
  intro p hp
  obtain ⟨q, hq, t, v, _, htd, _, _, _, heq⟩ := clean_mem h p hp
  have hvalid := toDatetime_valid (hok q hq) htd
  have hmonth := Timestamp.valid_month hvalid
  have hweek := isoWeek_bounds t
  refine ⟨⟨isoWeek t, ?_, hweek.1, hweek.2⟩, ⟨t.month, ?_, hmonth.1, hmonth.2⟩,
    ⟨dayName t, ?_, dayName_mem t⟩⟩
  · rw [heq, rowTrans_invoiceWeek]
  · rw [heq, rowTrans_invoiceMonth]
  · rw [heq, rowTrans_invoiceDay]

theorem c8_witness :
    (∃ w, mugOut.invoiceWeek = some w ∧ 1 ≤ w ∧ w ≤ 53) ∧
    (∃ m, mugOut.invoiceMonth = some m ∧ 1 ≤ m ∧ m ≤ 12) ∧
    (∃ s, mugOut.invoiceDay = some s ∧ s ∈ dayNames) :=
  c8_calendar_fields clean_mugDF (by decide) (0, mugOut) (List.Mem.head _)

/-- The cast stage of `clean` never fails: it is applied to the rows that
survived `dropna(subset=["Customer ID"])`, on which every `Customer ID`
is present. -/
theorem castStage_isSome (l : List (Nat × Row)) :
    (mapO castPair (l.filter fun p => p.2.customerID.isSome)).isSome = true := by
  apply mapO_isSome
  intro a ha
  have hmem := (List.mem_filter.mp ha).2
  unfold castPair
  cases hcid : a.2.customerID with
  | none => rw [hcid] at hmem; simp at hmem
  | some v => rfl

/-- C10: the integer cast of `Customer ID` runs only after the
`dropna(subset=["Customer ID"])` filter, so its failure branch is
unreachable: the cast stage succeeds on every filtered input, and when
`clean` fails at all, the failure is the date-parse stage. -/
theorem c10_cast_unreachable :
    (∀ l : List (Nat × Row),
      (mapO castPair (l.filter fun p => p.2.customerID.isSome)).isSome = true) ∧
    ∀ df : List (Nat × Row), clean df = none →
      mapO parsePair (df.filter fun p => p.2.description.isSome) = none := by
  refine ⟨castStage_isSome, ?_⟩
  intro df h
  cases hm : mapO parsePair (df.filter fun p => p.2.description.isSome) with
  | none => rfl
  | some df2 =>
    exfalso
    unfold clean at h
    rw [hm, Option.some_bind] at h
    have hcs := castStage_isSome ((df2.filter fun p => decide (0 < p.2.quantity)).filter
      fun p => decide (0 < p.2.price))
    cases hc : mapO castPair (((df2.filter fun p => decide (0 < p.2.quantity)).filter
        fun p => decide (0 < p.2.price)).filter fun p => p.2.customerID.isSome) with
    | none => rw [hc] at hcs; simp at hcs
    | some df6 => rw [hc, Option.some_bind] at h; simp at h

theorem c10_witness :
    mapO parsePair (badDateDF.filter fun p => p.2.description.isSome) = none :=
  c10_cast_unreachable.2 badDateDF (by decide)

theorem deriveRow_invoiceNo (r : Row) : (deriveRow r).invoiceNo = r.invoiceNo := by
  unfold deriveRow
  split <;> rfl

/-- Indexing helper: enumerating the row column of a frame and projecting a
row field is the same as projecting it on the frame. -/
theorem enum_invoiceNo (l : List (Nat × Row)) :
    ((l.map Prod.snd).enum.map fun p => p.2.invoiceNo) =
      l.map fun p => p.2.invoiceNo := by
  have h1 : ((l.map Prod.snd).enum.map fun p => p.2.invoiceNo) =
      ((l.map Prod.snd).enum.map Prod.snd).map fun r => r.invoiceNo := by
    rw [List.map_map]; rfl
  rw [h1, List.enum_map_snd, List.map_map]
  rfl

/-- C9: the output of `clean` keeps the retained rows in their original
relative order (the `InvoiceNo` column of the output is a sublist of the
input's), removes rows but never adds any, and carries the contiguous
0-based index produced by `reset_index(drop=True)`. -/
theorem c9_order_count_index {df out : List (Nat × Row)} (h : clean df = some out) :
    out.map Prod.fst = List.range out.length ∧
    out.length ≤ df.length ∧
    (out.map fun p => p.2.invoiceNo).Sublist (df.map fun p => p.2.invoiceNo) := by
  unfold clean at h
  rcases Option.bind_eq_some.mp h with ⟨df2, hparse, h2⟩
  rcases Option.bind_eq_some.mp h2 with ⟨df6, hcast, h6⟩
  simp only [Option.some.injEq] at h6
  subst h6
  refine ⟨?_, ?_, ?_⟩
  · rw [List.enum_map_fst, List.enum_length]
  · -- the row count never grows
    rw [List.enum_length, List.length_map, List.length_map, List.length_map]
    have h6l := mapO_length hcast
    have h5 : ((((df2.filter fun p => decide (0 < p.2.quantity)).filter
        fun p => decide (0 < p.2.price)).filter fun p => p.2.customerID.isSome)).length ≤
        df2.length :=
      le_trans (List.length_filter_le _ _)
        (le_trans (List.length_filter_le _ _) (List.length_filter_le _ _))
    have h2l := mapO_length hparse
    have h1 : (df.filter fun p => p.2.description.isSome).length ≤ df.length :=
      List.length_filter_le _ _
    omega
  · -- original relative order: chase the InvoiceNo column through the stages
    rw [enum_invoiceNo]
    have e1 : ((List.map (fun p => (p.1, stripRow p.2))
        (List.map (fun p => (p.1, deriveRow p.2)) df6)).map fun p => p.2.invoiceNo) =
        df6.map fun p => p.2.invoiceNo := by
      rw [List.map_map, List.map_map]
      exact List.map_congr_left fun a _ => deriveRow_invoiceNo a.2
    rw [e1]
    have e3 : (df6.map fun p => p.2.invoiceNo) =
        ((((df2.filter fun p => decide (0 < p.2.quantity)).filter
          fun p => decide (0 < p.2.price)).filter
          fun p => p.2.customerID.isSome).map fun p => p.2.invoiceNo) := by
      apply mapO_map hcast
      intro a b hab
      unfold castPair at hab
      cases hcid : a.2.customerID with
      | none => rw [hcid] at hab; exact absurd hab (by simp)
      | some v =>
        rw [hcid] at hab
        have := Option.some.inj hab
        rw [← this]
    have e4 : (df2.map fun p => p.2.invoiceNo) =
        ((df.filter fun p => p.2.description.isSome).map fun p => p.2.invoiceNo) := by
      apply mapO_map hparse
      intro a b hab
      unfold parsePair at hab
      cases htd : toDatetime a.2.invoiceDate with
      | none => rw [htd] at hab; exact absurd hab (by simp)
      | some t =>
        rw [htd] at hab
        have := Option.some.inj hab
        rw [← this]
    have s5 : ((((df2.filter fun p => decide (0 < p.2.quantity)).filter
        fun p => decide (0 < p.2.price)).filter
        fun p => p.2.customerID.isSome)).Sublist df2 :=
      ((List.filter_sublist _).trans (List.filter_sublist _)).trans
        (List.filter_sublist _)
    have h56 := List.Sublist.map (fun p : Nat × Row => p.2.invoiceNo) s5
    have h1f := List.Sublist.map (fun p : Nat × Row => p.2.invoiceNo)
      (List.filter_sublist (p := fun p : Nat × Row => p.2.description.isSome) df)
    rw [e3]
    refine h56.trans ?_
    rw [e4]
    exact h1f

theorem c9_witness :
    ([(0, mugOut)] : List (Nat × Row)).map Prod.fst =
      List.range ([(0, mugOut)] : List (Nat × Row)).length ∧
    ([(0, mugOut)] : List (Nat × Row)).length ≤ mugDF.length ∧
    (([(0, mugOut)] : List (Nat × Row)).map fun p => p.2.invoiceNo).Sublist
      (mugDF.map fun p => p.2.invoiceNo) :=
  c9_order_count_index clean_mugDF

/-- Re-deriving the feature columns of an already-cleaned row recomputes
the same values. -/
theorem deriveRow_rowTrans (t : Timestamp) (v : Rat) (r : Row) :
    deriveRow (rowTrans t v r) = rowTrans t v r := rfl

/-- Re-stripping an already-stripped description changes nothing. -/
theorem stripRow_rowTrans (t : Timestamp) (v : Rat) (r : Row) :
    stripRow (rowTrans t v r) = rowTrans t v r := by
  unfold stripRow
  have hmap : Option.map pstrip (rowTrans t v r).description =
      (rowTrans t v r).description := by
    rw [rowTrans_description]
    cases r.description with
    | none => rfl
    | some s =>
      show some (pstrip (pstrip s)) = some (pstrip s)
      rw [pstrip_idem]
  rw [hmap]

/-- C7: `clean` is idempotent — applied to its own output it returns that
output unchanged: every output row already satisfies all the filter
predicates and every derived field recomputes to the same value. -/
theorem c7_idempotent {df out : List (Nat × Row)} (h : clean df = some out) :
    clean out = some out := by
  have hmem := clean_mem h
  have henum := clean_out_enum h
  have hrow : ∀ p ∈ out, p.2.description.isSome = true ∧ parsePair p = some p ∧
      decide (0 < p.2.quantity) = true ∧ decide (0 < p.2.price) = true ∧
      p.2.customerID.isSome = true ∧ castPair p = some p ∧
      (p.1, deriveRow p.2) = p ∧ (p.1, stripRow p.2) = p := by
    intro p hp
    obtain ⟨q, hq, t, v, hdesc, htd, hcid, hqty, hpr, heq⟩ := hmem p hp
    have hd : p.2.invoiceDate = DateVal.parsed t := by rw [heq, rowTrans_invoiceDate]
    have hcv : p.2.customerID = some ((truncRat v : Int) : Rat) := by
      rw [heq, rowTrans_customerID]
    refine ⟨?_, ?_, ?_, ?_, ?_, ?_, ?_, ?_⟩
    · rw [heq, rowTrans_description]
      cases hqd : q.2.description with
      | none => rw [hqd] at hdesc; simp at hdesc
      | some s => rfl
    · unfold parsePair
      rw [hd]
      show some (p.1, {p.2 with invoiceDate := DateVal.parsed t}) = some p
      rw [← hd]
    · exact decide_eq_true (by rw [heq, rowTrans_quantity]; exact hqty)
    · exact decide_eq_true (by rw [heq, rowTrans_price]; exact hpr)
    · rw [hcv]; rfl
    · unfold castPair
      rw [hcv]
      show some (p.1, {p.2 with
        customerID := some ((truncRat ((truncRat v : Int) : Rat) : Int) : Rat)}) = some p
      rw [truncRat_intCast, ← hcv]
    · rw [heq, deriveRow_rowTrans, ← heq]
    · rw [heq, stripRow_rowTrans, ← heq]
  have hA : (out.filter fun p => p.2.description.isSome) = out :=
    List.filter_eq_self.mpr fun p hp => (hrow p hp).1
  have hB : mapO parsePair out = some out :=
    mapO_id fun p hp => (hrow p hp).2.1
  have hC : (out.filter fun p => decide (0 < p.2.quantity)) = out :=
    List.filter_eq_self.mpr fun p hp => (hrow p hp).2.2.1
  have hD : (out.filter fun p => decide (0 < p.2.price)) = out :=
    List.filter_eq_self.mpr fun p hp => (hrow p hp).2.2.2.1
  have hE : (out.filter fun p => p.2.customerID.isSome) = out :=
    List.filter_eq_self.mpr fun p hp => (hrow p hp).2.2.2.2.1
  have hF : mapO castPair out = some out :=
    mapO_id fun p hp => (hrow p hp).2.2.2.2.2.1
  have hG : (out.map fun p => (p.1, deriveRow p.2)) = out := by
    calc (out.map fun p => (p.1, deriveRow p.2)) = out.map id :=
          List.map_congr_left fun p hp => (hrow p hp).2.2.2.2.2.2.1
      _ = out := List.map_id out
  have hH : (out.map fun p => (p.1, stripRow p.2)) = out := by
    calc (out.map fun p => (p.1, stripRow p.2)) = out.map id :=
          List.map_congr_left fun p hp => (hrow p hp).2.2.2.2.2.2.2
      _ = out := List.map_id out
  unfold clean
  rw [hA, hB]
  simp only [Option.some_bind]
  rw [hC, hD, hE, hF]
  simp only [Option.some_bind]
  rw [hG, hH, ← henum]

theorem c7_witness : clean [(0, mugOut)] = some [(0, mugOut)] :=
  c7_idempotent clean_mugDF

end DataPrep
